import Mathlib

set_option autoImplicit false

/-!
Shallow embedding of the video-synthesis core of `src/components/YouTubeUploader.tsx`
(caption timing estimator, visual timeline scheduler, frame compositor render loop,
recorder state machine) and of `uploadVideo` from the YouTube service module.
JavaScript numbers are modelled as exact rationals, extended with NaN and the two
infinities where the special values matter (the duration validity check and the
division by a zero visual count); plain rationals are used elsewhere.
-/

/-- A JavaScript number as used by the uploader: NaN, positive or negative
Infinity, or a finite value (modelled exactly as a rational). -/
inductive JSNum where
  | nan : JSNum
  | posInf : JSNum
  | negInf : JSNum
  | finite : ℚ → JSNum
deriving DecidableEq

/-- JavaScript `isFinite` on a number. -/
def jsIsFinite : JSNum → Bool
  | JSNum.finite _ => true
  | _ => false

/-- JavaScript division on numbers, restricted to the cases the uploader can
reach: a finite value divided by zero gives a signed infinity (NaN for `0/0`),
a finite value divided by an infinity gives `0`, infinities divided by finite
values keep their sign, and any operation on NaN gives NaN. -/
def jsDiv : JSNum → JSNum → JSNum
  | JSNum.nan, _ => JSNum.nan
  | _, JSNum.nan => JSNum.nan
  | JSNum.finite a, JSNum.finite b =>
      if b = 0 then
        if a = 0 then JSNum.nan else if 0 < a then JSNum.posInf else JSNum.negInf
      else JSNum.finite (a / b)
  | JSNum.finite _, JSNum.posInf => JSNum.finite 0
  | JSNum.finite _, JSNum.negInf => JSNum.finite 0
  | JSNum.posInf, JSNum.finite b => if 0 ≤ b then JSNum.posInf else JSNum.negInf
  | JSNum.negInf, JSNum.finite b => if 0 ≤ b then JSNum.negInf else JSNum.posInf
  | JSNum.posInf, _ => JSNum.nan
  | JSNum.negInf, _ => JSNum.nan

/-- JavaScript `Math.floor`. -/
def jsFloor : JSNum → JSNum
  | JSNum.nan => JSNum.nan
  | JSNum.posInf => JSNum.posInf
  | JSNum.negInf => JSNum.negInf
  | JSNum.finite q => JSNum.finite ((⌊q⌋ : ℤ) : ℚ)

/-- JavaScript `Math.min` (NaN-propagating). -/
def jsMin : JSNum → JSNum → JSNum
  | JSNum.nan, _ => JSNum.nan
  | _, JSNum.nan => JSNum.nan
  | JSNum.negInf, _ => JSNum.negInf
  | _, JSNum.negInf => JSNum.negInf
  | JSNum.posInf, b => b
  | a, JSNum.posInf => a
  | JSNum.finite a, JSNum.finite b => JSNum.finite (min a b)

/-- The visual timeline scheduler exactly as evaluated inside the render loop of
`createVideoBlob` (`YouTubeUploader.tsx`, lines 89 and 146-147), under JavaScript
number semantics: `slideDuration = duration / visuals.length` and
`visualIndex = Math.min(Math.floor(currentTime / slideDuration), mediaElements.length - 1)`. -/
def activeVisualIndexJS (t dur : JSNum) (n : ℕ) : JSNum :=
  jsMin (jsFloor (jsDiv t (jsDiv dur (JSNum.finite (n : ℚ))))) (JSNum.finite ((n : ℚ) - 1))

/-- The same index computation in exact rational arithmetic; it agrees with
`activeVisualIndexJS` whenever `n ≥ 1` and the duration is finite and positive. -/
def activeVisualIndex (t dur : ℚ) (n : ℕ) : ℤ :=
  min ⌊t / (dur / (n : ℚ))⌋ ((n : ℤ) - 1)

/-- The precondition check both `handleUpload` and `handleDownload` run before any
synthesis starts (`YouTubeUploader.tsx`, lines 341-344 and 371-374): with no audio
data URL or an empty visual list they surface an error message and return without
calling `createVideoBlob`. -/
def synthesisPrecheck (hasAudioDataUrl : Bool) (visualCount : ℕ) : Option String :=
  if !hasAudioDataUrl || visualCount == 0 then
    some "Both audio and at least one visual are required to create a video."
  else none

/-- `totalFrames = Math.ceil(duration * 30)` (`YouTubeUploader.tsx`, line 128). -/
def totalFramesFor (audioDuration : ℚ) : ℕ := (⌈audioDuration * 30⌉).toNat

/-- The frame numbers composited by the render interval of `createVideoBlob`
(`YouTubeUploader.tsx`, lines 135-144 and 242-243), in tick order: each tick
stops if `frame > totalFrames`, otherwise composites frame `frame` and
increments the counter. -/
def loopFrames (total : ℕ) (frame : ℕ) : List ℕ :=
  if total < frame then []
  else frame :: loopFrames total (frame + 1)
termination_by total + 1 - frame
decreasing_by omega

theorem loopFrames_eq (total frame : ℕ) :
    loopFrames total frame = List.range' frame (total + 1 - frame) := by
  rw [loopFrames]
  by_cases h : total < frame
  · rw [if_pos h, Nat.sub_eq_zero_of_le (by omega)]
    rfl
  · rw [if_neg h, loopFrames_eq total (frame + 1)]
    have h2 : total + 1 - frame = (total + 1 - (frame + 1)) + 1 := by omega
    rw [h2, List.range'_succ]
termination_by total + 1 - frame
decreasing_by omega

theorem loopFrames_zero (total : ℕ) : loopFrames total 0 = List.range (total + 1) := by
  rw [loopFrames_eq, List.range_eq_range', Nat.sub_zero]

theorem activeVisualIndex_eq_floor {t dur : ℚ} {n : ℕ} (hn : 1 ≤ n) (hD : 0 < dur)
    (ht0 : 0 ≤ t) (htD : t < dur) :
    activeVisualIndex t dur n = ⌊t / (dur / (n : ℚ))⌋ ∧
    0 ≤ ⌊t / (dur / (n : ℚ))⌋ ∧ ⌊t / (dur / (n : ℚ))⌋ ≤ (n : ℤ) - 1 := by
  have hnQ : (0 : ℚ) < (n : ℚ) := by exact_mod_cast Nat.lt_of_lt_of_le Nat.zero_lt_one hn
  have hu : 0 < dur / (n : ℚ) := div_pos hD hnQ
  have h0 : 0 ≤ ⌊t / (dur / (n : ℚ))⌋ := Int.floor_nonneg.mpr (div_nonneg ht0 hu.le)
  have hlt : t / (dur / (n : ℚ)) < (n : ℚ) := by
    rw [div_lt_iff hu]
    calc t < dur := htD
    _ = (n : ℚ) * (dur / (n : ℚ)) := by field_simp
  have hle : ⌊t / (dur / (n : ℚ))⌋ ≤ (n : ℤ) - 1 := by
    have := Int.floor_lt.mpr (show t / (dur / (n : ℚ)) < ((n : ℤ) : ℚ) by exact_mod_cast hlt)
    omega
  exact ⟨min_eq_left hle, h0, hle⟩

/-- C1: for every `0 ≤ t < D`, visual count `n ≥ 1` and finite duration `D > 0`,
the index the render loop computes under JavaScript semantics equals
`min(⌊t / (D / n)⌋, n - 1)`; this equals the unclamped floor, lies in `[0, n-1]`,
is non-decreasing in `t`, its preimage of every `k < n` is exactly the contiguous
slot `[k·(D/n), (k+1)·(D/n))`, and every `k < n` is attained at some time in
`[0, D)`. -/
theorem scheduler_uniform_slots (n : ℕ) (dur t : ℚ) (hn : 1 ≤ n) (hD : 0 < dur)
    (ht0 : 0 ≤ t) (htD : t < dur) :
    activeVisualIndexJS (JSNum.finite t) (JSNum.finite dur) n
      = JSNum.finite ((activeVisualIndex t dur n : ℤ) : ℚ) ∧
    activeVisualIndex t dur n = ⌊t / (dur / (n : ℚ))⌋ ∧
    0 ≤ activeVisualIndex t dur n ∧
    activeVisualIndex t dur n ≤ (n : ℤ) - 1 ∧
    (∀ u : ℚ, t ≤ u → u < dur → activeVisualIndex t dur n ≤ activeVisualIndex u dur n) ∧
    (∀ k : ℕ, k < n →
      (activeVisualIndex t dur n = (k : ℤ) ↔
        (k : ℚ) * (dur / (n : ℚ)) ≤ t ∧ t < ((k : ℚ) + 1) * (dur / (n : ℚ)))) ∧
    (∀ k : ℕ, k < n → ∃ u : ℚ, 0 ≤ u ∧ u < dur ∧ activeVisualIndex u dur n = (k : ℤ)) := by
  have hnQ : (0 : ℚ) < (n : ℚ) := by exact_mod_cast Nat.lt_of_lt_of_le Nat.zero_lt_one hn
  have hu : 0 < dur / (n : ℚ) := div_pos hD hnQ
  have hnne : (n : ℚ) ≠ 0 := ne_of_gt hnQ
  have hune : dur / (n : ℚ) ≠ 0 := ne_of_gt hu
  obtain ⟨heq, h0, hle⟩ := activeVisualIndex_eq_floor hn hD ht0 htD
  refine ⟨?_, heq, heq ▸ h0, heq ▸ hle, ?_, ?_, ?_⟩
  · have e1 : jsDiv (JSNum.finite dur) (JSNum.finite (n : ℚ)) = JSNum.finite (dur / (n : ℚ)) := by
      simp [jsDiv, hnne]
    have e2 : jsDiv (JSNum.finite t) (JSNum.finite (dur / (n : ℚ)))
        = JSNum.finite (t / (dur / (n : ℚ))) := by
      simp [jsDiv, hune]
    rw [activeVisualIndexJS, e1, e2]
    show JSNum.finite (min ((⌊t / (dur / (n : ℚ))⌋ : ℤ) : ℚ) ((n : ℚ) - 1)) = _
    rw [activeVisualIndex]
    congr 1
    push_cast
    rfl
  · intro u htu huD
    obtain ⟨hequ, _, _⟩ := activeVisualIndex_eq_floor hn hD (le_trans ht0 htu) huD
    rw [heq, hequ]
    exact Int.floor_le_floor ((div_le_div_right hu).mpr htu)
  · intro k hk
    rw [heq, Int.floor_eq_iff, le_div_iff hu, div_lt_iff hu]
    constructor
    · rintro ⟨h1, h2⟩
      refine ⟨by exact_mod_cast h1, ?_⟩
      have : t < (((k : ℤ) : ℚ) + 1) * (dur / (n : ℚ)) := h2
      push_cast at this ⊢
      exact this
    · rintro ⟨h1, h2⟩
      constructor
      · exact_mod_cast h1
      · push_cast
        exact_mod_cast h2
  · intro k hk
    refine ⟨(k : ℚ) * (dur / (n : ℚ)), mul_nonneg (Nat.cast_nonneg k) hu.le, ?_, ?_⟩
    · calc (k : ℚ) * (dur / (n : ℚ)) < (n : ℚ) * (dur / (n : ℚ)) :=
            mul_lt_mul_of_pos_right (by exact_mod_cast hk) hu
      _ = dur := by field_simp
    · rw [activeVisualIndex, mul_div_assoc, div_self hune, mul_one, Int.floor_natCast]
      have hkn : (k : ℤ) ≤ (n : ℤ) - 1 := by
        have : (k : ℤ) < (n : ℤ) := by exact_mod_cast hk
        omega
      exact min_eq_left hkn

theorem scheduler_uniform_slots_witness :
    (1 ≤ 2 ∧ (0 : ℚ) < 4 ∧ (0 : ℚ) ≤ 1 ∧ (1 : ℚ) < 4) ∧ 0 ≤ activeVisualIndex 1 4 2 :=
  ⟨⟨by norm_num, by norm_num, by norm_num, by norm_num⟩,
    (scheduler_uniform_slots 2 4 1 (by norm_num) (by norm_num) (by norm_num)
      (by norm_num)).2.2.1⟩

/-- C3: for every finite duration `D > 0` the render loop composites exactly the
frames `0, 1, …, totalFrames` in strictly increasing order with none skipped,
where `totalFrames = ⌈D · 30⌉`; in particular a 2-second run composites exactly
61 frames. -/
theorem renderLoop_frame_count (audioDuration : ℚ) (hD : 0 < audioDuration) :
    loopFrames (totalFramesFor audioDuration) 0
      = List.range (totalFramesFor audioDuration + 1) ∧
    (loopFrames (totalFramesFor audioDuration) 0).length = totalFramesFor audioDuration + 1 ∧
    List.Pairwise (fun a b => a < b) (loopFrames (totalFramesFor audioDuration) 0) ∧
    totalFramesFor 2 = 60 ∧ (loopFrames (totalFramesFor 2) 0).length = 61 := by
  have h2 : totalFramesFor 2 = 60 := by
    have he : ((2 : ℚ) * 30) = ((60 : ℤ) : ℚ) := by norm_num
    rw [totalFramesFor, he, Int.ceil_intCast]
    rfl
  refine ⟨loopFrames_zero _, ?_, ?_, h2, ?_⟩
  · rw [loopFrames_zero, List.length_range]
  · rw [loopFrames_zero]
    exact List.pairwise_lt_range _
  · rw [loopFrames_zero, List.length_range, h2]

theorem renderLoop_frame_count_witness :
    (0 : ℚ) < 2 ∧ (loopFrames (totalFramesFor 2) 0).length = 61 :=
  ⟨by norm_num, (renderLoop_frame_count 2 (by norm_num)).2.2.2.2⟩

/-- C5 counterexample: resolving the index with `n = 0`, time `t = 1` and duration
`D = 4` does not fail: `slideDuration` evaluates to `+∞`, the floor of `t / +∞` is
`0`, and the clamp against `n - 1 = -1` returns the value `-1`. -/
theorem scheduler_zero_visuals_counterexample :
    activeVisualIndexJS (JSNum.finite 1) (JSNum.finite 4) 0 = JSNum.finite (-1) := by
  have e1 : jsDiv (JSNum.finite 4) (JSNum.finite ((0 : ℕ) : ℚ)) = JSNum.posInf := by
    norm_num [jsDiv]
  rw [activeVisualIndexJS, e1]
  show jsMin (jsFloor (JSNum.finite 0)) (JSNum.finite (((0 : ℕ) : ℚ) - 1)) = _
  rw [jsFloor]
  norm_num [jsMin]

/-- C5 amended: with `n = 0` the scheduler expression does not fail; for every
finite `t` and finite `D > 0` it evaluates to `-1` (an out-of-range value, so the
frame draws no visual); zero-visual runs are instead blocked by the precondition
check in `handleUpload`/`handleDownload` before synthesis starts. -/
theorem scheduler_zero_visuals (t dur : ℚ) (hD : 0 < dur) :
    activeVisualIndexJS (JSNum.finite t) (JSNum.finite dur) 0 = JSNum.finite (-1) ∧
    synthesisPrecheck true 0
      = some "Both audio and at least one visual are required to create a video." := by
  constructor
  · have e1 : jsDiv (JSNum.finite dur) (JSNum.finite ((0 : ℕ) : ℚ)) = JSNum.posInf := by
      simp [jsDiv, hD, hD.ne', not_lt_of_lt hD]
    rw [activeVisualIndexJS, e1]
    show jsMin (jsFloor (JSNum.finite 0)) (JSNum.finite (((0 : ℕ) : ℚ) - 1)) = _
    rw [jsFloor]
    norm_num [jsMin]
  · rfl

theorem scheduler_zero_visuals_witness :
    (0 : ℚ) < 1 ∧ activeVisualIndexJS (JSNum.finite 5) (JSNum.finite 1) 0 = JSNum.finite (-1) :=
  ⟨by norm_num, (scheduler_zero_visuals 5 1 (by norm_num)).1⟩

/-- A caption segment (`YouTubeUploader.tsx`, lines 13-17). `end` is a Lean
keyword, so that field is named `endTime`. -/
structure Caption where
  text : List Char
  start : ℚ
  endTime : ℚ
deriving DecidableEq

/-- Whitespace as matched by the JavaScript `\s` class and by `String.trim`,
restricted to the characters that occur in scripts here (space, tab, newline,
carriage return, vertical tab, form feed). -/
def isWS (c : Char) : Bool :=
  c = ' ' || c = '\t' || c = '\n' || c = '\r' || c = '\x0b' || c = '\x0c'

/-- JavaScript `String.prototype.trim` over the modelled whitespace class. -/
def trimWS (l : List Char) : List Char :=
  ((l.dropWhile isWS).reverse.dropWhile isWS).reverse

/-- `Array.prototype.join(' ')`: the quoted narration parts concatenated with a
single space separator (`YouTubeUploader.tsx`, line 33). -/
def joinSp (parts : List (List Char)) : List Char :=
  List.intercalate [' '] parts

/-- Scans for the closing quote of a lazy `"(.*?)"` match: returns the content
before the next `"` together with the remainder after it, or `none` when a line
terminator (which `.` does not match) or the end of the input comes first. -/
def takeUntilQuote : List Char → Option (List Char × List Char)
  | [] => none
  | c :: rest =>
    if c = '"' then some ([], rest)
    else if c = '\n' ∨ c = '\r' then none
    else match takeUntilQuote rest with
      | none => none
      | some (content, rest') => some (c :: content, rest')

/-- Fuelled scanner for all matches of `/"(.*?)"/g`, returning the captured
contents with the delimiting quotes stripped, exactly as
`part.substring(1, part.length - 1)` does (`YouTubeUploader.tsx`, lines 28-33).
A failed attempt at an opening quote resumes scanning at the next position, as
the regex engine does. One unit of fuel is spent per consumed character, so
`fuel = script.length` always suffices. -/
def matchQuotedAux : ℕ → List Char → List (List Char)
  | 0, _ => []
  | _, [] => []
  | fuel + 1, c :: rest =>
    if c = '"' then
      match takeUntilQuote rest with
      | some (content, rest') => content :: matchQuotedAux fuel rest'
      | none => matchQuotedAux fuel rest
    else matchQuotedAux fuel rest

/-- All narration spans of the script: `script.match(/"(.*?)"/g)`, with `null`
represented by the empty list and quotes stripped. -/
def matchQuoted (script : List Char) : List (List Char) :=
  matchQuotedAux script.length script

/-- The lookbehind `(?<=[.!?])`: does the reversed accumulator of the current
sentence end with sentence-terminal punctuation? -/
def headIsTerminal : List Char → Bool
  | [] => false
  | c :: _ => c = '.' || c = '!' || c = '?'

/-- Fuelled splitter for `fullNarration.split(/(?<=[.!?])\s+/)`
(`YouTubeUploader.tsx`, line 35): a maximal whitespace run immediately preceded
by `.`, `!` or `?` separates sentences, the punctuation staying attached to the
preceding sentence. The accumulator holds the current sentence reversed. -/
def splitSentencesAux : ℕ → List Char → List Char → List (List Char)
  | 0, acc, _ => [acc.reverse]
  | _, acc, [] => [acc.reverse]
  | fuel + 1, acc, c :: rest =>
    if isWS c && headIsTerminal acc then
      acc.reverse :: splitSentencesAux fuel [] (rest.dropWhile isWS)
    else splitSentencesAux fuel (c :: acc) rest

/-- `fullNarration.split(/(?<=[.!?])\s+/)`. -/
def splitSentences (l : List Char) : List (List Char) :=
  splitSentencesAux l.length [] l

/-- The sentence list of `generateCaptions` (`YouTubeUploader.tsx`, lines 33-39):
quoted parts joined by single spaces and trimmed, split into sentences with blank
pieces dropped; if that leaves nothing while the narration is non-empty, the
whole narration is a single sentence. -/
def sentencesOf (script : List Char) : List (List Char) :=
  let fullNarration := trimWS (joinSp (matchQuoted script))
  let pieces := (splitSentences fullNarration).filter (fun s => !(trimWS s).isEmpty)
  if pieces.isEmpty && !fullNarration.isEmpty then [fullNarration] else pieces

/-- The caption-building loop (`YouTubeUploader.tsx`, lines 51-62): each sentence
gets duration `sentence.length / charsPerSecond` and the segments are laid
back-to-back from `currentTime`, the displayed text being the trimmed sentence. -/
def buildCaptions (sentences : List (List Char)) (charsPerSecond : ℚ) (currentTime : ℚ) :
    List Caption :=
  match sentences with
  | [] => []
  | s :: rest =>
    { text := trimWS s, start := currentTime,
      endTime := currentTime + (s.length : ℚ) / charsPerSecond }
      :: buildCaptions rest charsPerSecond (currentTime + (s.length : ℚ) / charsPerSecond)

/-- The body of `generateCaptions` once a valid duration is known
(`YouTubeUploader.tsx`, lines 28-64): empty result when there are no narration
parts, no sentences, or a zero total character count, otherwise the
back-to-back captions with `charsPerSecond = totalLength / duration`. -/
def generateCaptionsBody (script : List Char) (dur : ℚ) : List Caption :=
  if (matchQuoted script).isEmpty then []
  else
    let sentences := sentencesOf script
    if sentences.isEmpty then []
    else
      let totalLength := (sentences.map List.length).sum
      if totalLength = 0 then []
      else buildCaptions sentences ((totalLength : ℚ) / dur) 0

/-- The rational value of a finite JavaScript number (junk `0` on non-finite
values; every use below is guarded by a finiteness check). -/
def JSNum.toRat : JSNum → ℚ
  | JSNum.finite q => q
  | _ => 0

/-- The `generateCaptions` promise once the audio metadata has loaded
(`YouTubeUploader.tsx`, lines 19-70): the guard
`if (!isFinite(duration) || duration === 0)` rejects with the invalid-duration
message, otherwise the body runs on the finite duration. -/
def generateCaptions (script : List Char) (dur : JSNum) : Except String (List Caption) :=
  if !jsIsFinite dur || dur == JSNum.finite 0 then
    Except.error "Invalid audio duration for caption generation."
  else Except.ok (generateCaptionsBody script dur.toRat)

theorem trimWS_nil : trimWS [] = [] := rfl

theorem sentencesOf_of_no_narration {script : List Char} (h : matchQuoted script = []) :
    sentencesOf script = [] := by
  unfold sentencesOf
  rw [h]
  rfl

theorem sentencesOf_ne_nil {script s : List Char} (h : s ∈ sentencesOf script) : s ≠ [] := by
  simp only [sentencesOf] at h
  split at h
  next hcond =>
    rw [List.mem_singleton] at h
    subst h
    intro hnil
    rw [hnil] at hcond
    simp at hcond
  next =>
    intro hnil
    subst hnil
    have hmem := (List.mem_filter.mp h).2
    rw [trimWS_nil] at hmem
    simp at hmem

theorem sentencesOf_total_pos {script : List Char} (h : ¬ (sentencesOf script).isEmpty = true) :
    0 < ((sentencesOf script).map List.length).sum := by
  cases hs : sentencesOf script with
  | nil => rw [hs] at h; simp at h
  | cons a l =>
    have ha : a ≠ [] := sentencesOf_ne_nil (hs ▸ List.mem_cons_self a l)
    have hlen : 0 < a.length := List.length_pos.mpr ha
    simp only [List.map_cons, List.sum_cons]
    exact Nat.lt_of_lt_of_le hlen (Nat.le_add_right _ _)

theorem buildCaptions_cons (s : List Char) (rest : List (List Char)) (cps cur : ℚ) :
    buildCaptions (s :: rest) cps cur
      = { text := trimWS s, start := cur, endTime := cur + (s.length : ℚ) / cps }
        :: buildCaptions rest cps (cur + (s.length : ℚ) / cps) := rfl

theorem buildCaptions_pairs (cps : ℚ) :
    ∀ (ss : List (List Char)) (cur : ℚ),
      List.Forall₂
        (fun (c : Caption) (s : List Char) =>
          c.endTime - c.start = (s.length : ℚ) / cps ∧ c.text = trimWS s)
        (buildCaptions ss cps cur) ss := by
  intro ss
  induction ss with
  | nil => intro cur; exact List.Forall₂.nil
  | cons s rest ih =>
    intro cur
    rw [buildCaptions_cons]
    exact List.Forall₂.cons ⟨by ring, rfl⟩ (ih _)

theorem buildCaptions_head_start (ss : List (List Char)) (cps cur : ℚ) :
    ∀ c : Caption, (buildCaptions ss cps cur).head? = some c → c.start = cur := by
  cases ss with
  | nil => intro c h; simp [buildCaptions] at h
  | cons s rest =>
    intro c h
    rw [buildCaptions_cons, List.head?_cons, Option.some.injEq] at h
    rw [← h]

theorem buildCaptions_chain (cps : ℚ) :
    ∀ (ss : List (List Char)) (cur : ℚ),
      List.Chain' (fun a b : Caption => b.start = a.endTime) (buildCaptions ss cps cur) := by
  intro ss
  induction ss with
  | nil => intro cur; exact List.chain'_nil
  | cons s rest ih =>
    intro cur
    rw [buildCaptions_cons, List.chain'_cons']
    refine ⟨?_, ih _⟩
    intro y hy
    exact buildCaptions_head_start rest cps _ y (Option.mem_def.mp hy)

theorem buildCaptions_start_ge (cps : ℚ) (hcps : 0 ≤ cps) :
    ∀ (ss : List (List Char)) (cur : ℚ) (c : Caption),
      c ∈ buildCaptions ss cps cur → cur ≤ c.start := by
  intro ss
  induction ss with
  | nil => intro cur c h; simp [buildCaptions] at h
  | cons s rest ih =>
    intro cur c h
    rw [buildCaptions_cons, List.mem_cons] at h
    rcases h with h | h
    · rw [h]
    · have h1 : cur + (s.length : ℚ) / cps ≤ c.start := ih _ c h
      have h2 : (0 : ℚ) ≤ (s.length : ℚ) / cps := div_nonneg (Nat.cast_nonneg _) hcps
      linarith

theorem buildCaptions_start_lt_end (cps : ℚ) (hcps : 0 < cps) :
    ∀ (ss : List (List Char)) (cur : ℚ), (∀ s ∈ ss, s ≠ []) →
      ∀ c ∈ buildCaptions ss cps cur, c.start < c.endTime := by
  intro ss
  induction ss with
  | nil => intro cur _ c h; simp [buildCaptions] at h
  | cons s rest ih =>
    intro cur hne c h
    rw [buildCaptions_cons, List.mem_cons] at h
    rcases h with h | h
    · rw [h]
      have hlen : (0 : ℚ) < (s.length : ℚ) := by
        exact_mod_cast List.length_pos.mpr (hne s (List.mem_cons_self s rest))
      have : (0 : ℚ) < (s.length : ℚ) / cps := div_pos hlen hcps
      simp only
      linarith
    · exact ih _ (fun u hu => hne u (List.mem_cons_of_mem s hu)) c h

theorem buildCaptions_pairwise (cps : ℚ) (hcps : 0 ≤ cps) :
    ∀ (ss : List (List Char)) (cur : ℚ),
      List.Pairwise (fun a b : Caption => a.start ≤ b.start) (buildCaptions ss cps cur) := by
  intro ss
  induction ss with
  | nil => intro cur; exact List.Pairwise.nil
  | cons s rest ih =>
    intro cur
    rw [buildCaptions_cons]
    refine List.Pairwise.cons ?_ (ih _)
    intro b hb
    have h1 : cur + (s.length : ℚ) / cps ≤ b.start := buildCaptions_start_ge cps hcps rest _ b hb
    have h2 : (0 : ℚ) ≤ (s.length : ℚ) / cps := div_nonneg (Nat.cast_nonneg _) hcps
    simp only
    linarith

theorem getLast?_cons_of_ne_nil {α : Type} (a : α) {l : List α} (h : l ≠ []) :
    (a :: l).getLast? = l.getLast? := by
  cases l with
  | nil => exact absurd rfl h
  | cons b m => exact List.getLast?_cons_cons

theorem buildCaptions_last_end (cps : ℚ) :
    ∀ (ss : List (List Char)) (cur : ℚ) (c : Caption),
      (buildCaptions ss cps cur).getLast? = some c →
      c.endTime = cur + (ss.map (fun s => (s.length : ℚ) / cps)).sum := by
  intro ss
  induction ss with
  | nil => intro cur c h; simp [buildCaptions] at h
  | cons s rest ih =>
    intro cur c h
    rw [buildCaptions_cons] at h
    cases hr : rest with
    | nil =>
      subst hr
      simp only [buildCaptions, List.getLast?_singleton, Option.some.injEq] at h
      rw [← h]
      simp
    | cons s2 r2 =>
      subst hr
      rw [getLast?_cons_of_ne_nil _ (by rw [buildCaptions_cons]; exact List.cons_ne_nil _ _)] at h
      have := ih _ c h
      rw [this]
      simp only [List.map_cons, List.sum_cons]
      ring

theorem generateCaptions_finite_nonzero {script : List Char} {q : ℚ} (hq : q ≠ 0) :
    generateCaptions script (JSNum.finite q) = Except.ok (generateCaptionsBody script q) := by
  have hcheck : (!jsIsFinite (JSNum.finite q) || (JSNum.finite q == JSNum.finite 0)) = false := by
    simp [jsIsFinite, hq]
  rw [generateCaptions, hcheck]
  rfl

theorem generateCaptionsBody_eq_build {script : List Char} (dur : ℚ)
    (h2 : ¬ (sentencesOf script).isEmpty = true) :
    generateCaptionsBody script dur
      = buildCaptions (sentencesOf script)
          ((((sentencesOf script).map List.length).sum : ℚ) / dur) 0 := by
  have h1 : ¬ (matchQuoted script).isEmpty = true := by
    intro hmq
    apply h2
    rw [sentencesOf_of_no_narration (List.isEmpty_iff.mp hmq)]
    rfl
  have htot : ¬ (((sentencesOf script).map List.length).sum = 0) :=
    (sentencesOf_total_pos h2).ne'
  rw [generateCaptionsBody, if_neg h1]
  simp only [if_neg h2, if_neg htot]

theorem generateCaptionsBody_empty_of_no_sentences {script : List Char} (dur : ℚ)
    (h2 : (sentencesOf script).isEmpty = true) :
    generateCaptionsBody script dur = [] := by
  rw [generateCaptionsBody]
  by_cases h1 : (matchQuoted script).isEmpty = true
  · rw [if_pos h1]
  · rw [if_neg h1]
    simp only [if_pos h2]

/-- C2: for every script and finite duration `D > 0`, `generateCaptions` succeeds
and its captions pair off with the sentences so that each caption's duration is
`sentence.length / charsPerSecond` with `charsPerSecond = totalLength / D`; the
first caption starts at `0`, consecutive captions satisfy
`start_i = end_(i-1)`, starts are non-decreasing, the last caption's end is the
sum of all sentence durations, and every caption satisfies
`0 ≤ start < end`. -/
theorem captions_layout (script : List Char) (dur : ℚ) (hD : 0 < dur) :
    generateCaptions script (JSNum.finite dur) = Except.ok (generateCaptionsBody script dur) ∧
    List.Forall₂
      (fun (c : Caption) (s : List Char) =>
        c.endTime - c.start
          = (s.length : ℚ) / ((((sentencesOf script).map List.length).sum : ℚ) / dur))
      (generateCaptionsBody script dur) (sentencesOf script) ∧
    (∀ c : Caption, (generateCaptionsBody script dur).head? = some c → c.start = 0) ∧
    List.Chain' (fun a b : Caption => b.start = a.endTime) (generateCaptionsBody script dur) ∧
    List.Pairwise (fun a b : Caption => a.start ≤ b.start) (generateCaptionsBody script dur) ∧
    (∀ c : Caption, (generateCaptionsBody script dur).getLast? = some c →
      c.endTime = ((sentencesOf script).map
        (fun s => (s.length : ℚ) / ((((sentencesOf script).map List.length).sum : ℚ) / dur))).sum) ∧
    (∀ c ∈ generateCaptionsBody script dur, 0 ≤ c.start ∧ c.start < c.endTime) := by
  refine ⟨generateCaptions_finite_nonzero hD.ne', ?_⟩
  by_cases h2 : (sentencesOf script).isEmpty = true
  · have hb : generateCaptionsBody script dur = [] :=
      generateCaptionsBody_empty_of_no_sentences dur h2
    have hs : sentencesOf script = [] := List.isEmpty_iff.mp h2
    rw [hb, hs]
    refine ⟨List.Forall₂.nil, ?_, List.chain'_nil, List.Pairwise.nil, ?_, ?_⟩
    · intro c h
      simp at h
    · intro c h
      simp at h
    · intro c h
      simp at h
  · have hb := generateCaptionsBody_eq_build dur h2
    have htot : 0 < ((sentencesOf script).map List.length).sum := sentencesOf_total_pos h2
    have htotQ : (0 : ℚ) < (((sentencesOf script).map List.length).sum : ℚ) := by
      exact_mod_cast htot
    have hcps : (0 : ℚ) < (((sentencesOf script).map List.length).sum : ℚ) / dur :=
      div_pos htotQ hD
    rw [hb]
    refine ⟨?_, ?_, buildCaptions_chain _ _ _, buildCaptions_pairwise _ hcps.le _ _, ?_, ?_⟩
    · have := buildCaptions_pairs
        ((((sentencesOf script).map List.length).sum : ℚ) / dur) (sentencesOf script) 0
      exact this.imp (fun a b h => h.1)
    · intro c h
      exact buildCaptions_head_start _ _ _ c h
    · intro c h
      have := buildCaptions_last_end _ _ _ c h
      rw [this, zero_add]
    · intro c hc
      exact ⟨buildCaptions_start_ge _ hcps.le _ _ c hc,
        buildCaptions_start_lt_end _ hcps _ _ (fun s hs => sentencesOf_ne_nil hs) c hc⟩

theorem captions_layout_witness :
    (0 : ℚ) < 2 ∧ List.Chain' (fun a b : Caption => b.start = a.endTime)
      (generateCaptionsBody (String.toList "\"Hi there. Bye.\"") 2) :=
  ⟨by norm_num, (captions_layout (String.toList "\"Hi there. Bye.\"") 2 (by norm_num)).2.2.2.1⟩

/-- C4 counterexample: the guard is `!isFinite(duration) || duration === 0`, so the
finite negative duration `-1` passes it and caption estimation succeeds instead of
failing as the claim requires for every duration `≤ 0`. -/
theorem duration_guard_counterexample :
    generateCaptions [] (JSNum.finite (-1)) = Except.ok [] ∧ (-1 : ℚ) ≤ 0 := by
  constructor
  · rw [generateCaptions_finite_nonzero (by norm_num : (-1 : ℚ) ≠ 0)]
    rfl
  · norm_num

/-- C4 amended: caption estimation fails with the invalid-duration error exactly
when the audio duration is not finite or is equal to zero; finite negative
durations are not rejected on duration grounds (an `HTMLAudioElement` never
reports one, so the observable behavior agrees with the spec for reachable
inputs). -/
theorem duration_guard_iff (script : List Char) (d : JSNum) :
    generateCaptions script d = Except.error "Invalid audio duration for caption generation."
      ↔ (jsIsFinite d = false ∨ d = JSNum.finite 0) := by
  rw [generateCaptions]
  by_cases h : (!jsIsFinite d || (d == JSNum.finite 0)) = true
  · rw [if_pos h]
    simp only [Bool.or_eq_true, Bool.not_eq_true', beq_iff_eq] at h
    exact iff_of_true rfl h
  · rw [if_neg h]
    simp only [Bool.or_eq_true, Bool.not_eq_true', beq_iff_eq] at h
    push_neg at h
    refine iff_of_false (by simp) ?_
    rintro (h1 | h2)
    · exact h.1.elim (by simpa [jsIsFinite] using h1)
    · exact h.2 h2

/-- C9: for every finite duration `D > 0`, the caption body returns the empty
sequence when the script has no double-quoted substring and also when the total
narration character count is zero; both cases are exhibited on concrete
scripts. -/
theorem captions_empty_cases (script : List Char) (dur : ℚ) (hD : 0 < dur) :
    ((matchQuoted script).isEmpty = true → generateCaptionsBody script dur = []) ∧
    ((((sentencesOf script).map List.length).sum = 0) → generateCaptionsBody script dur = []) ∧
    generateCaptionsBody (String.toList "Intro: a script with no quoted narration.") dur = [] ∧
    generateCaptionsBody (String.toList "\"\"") dur = [] := by
  refine ⟨?_, ?_, ?_, ?_⟩
  · intro h1
    rw [generateCaptionsBody, if_pos h1]
  · intro htot
    by_cases h2 : (sentencesOf script).isEmpty = true
    · exact generateCaptionsBody_empty_of_no_sentences dur h2
    · exact absurd htot (sentencesOf_total_pos h2).ne'
  · rw [generateCaptionsBody, if_pos (by decide)]
  · have h2 : (sentencesOf (String.toList "\"\"")).isEmpty = true := by decide
    exact generateCaptionsBody_empty_of_no_sentences dur h2

theorem captions_empty_cases_witness :
    (0 : ℚ) < 1 ∧ generateCaptionsBody (String.toList "\"\"") 1 = [] :=
  ⟨by norm_num, (captions_empty_cases (String.toList "\"\"") 1 (by norm_num)).2.2.2⟩

/-- Outcome of drawing the active visual on one frame. -/
inductive DrawResult where
  | drawn : ℚ → DrawResult
  | blank : DrawResult
deriving DecidableEq

/-- The per-frame visual drawing step (`YouTubeUploader.tsx`, lines 163-179): when
the media element at the active index exists and reports a positive width it is
drawn with cover fitting, `scale = max(1280 / mediaWidth, 720 / mediaHeight)`;
otherwise nothing is drawn over the black-cleared surface. The tick body has no
rejection path for this case, so the step always returns `Except.ok`. -/
def renderVisualTick (media : Option (ℚ × ℚ)) : Except String DrawResult :=
  Except.ok (match media with
    | none => DrawResult.blank
    | some (w, h) => if 0 < w then DrawResult.drawn (max (1280 / w) (720 / h)) else DrawResult.blank)

/-- Asset loading (`YouTubeUploader.tsx`, lines 91-108): only the element's error
event rejects the run, with a message naming the asset; a successful load event
resolves regardless of the decoded dimensions. -/
def loadVisualResult (loadSucceeds : Bool) (assetName : String) : Except String Unit :=
  if loadSucceeds then Except.ok ()
  else Except.error ("Failed to load visual: " ++ assetName)

/-- C6 counterexample: a visual that loaded but decodes to zero drawable width is
silently skipped for the frame — the step returns `ok blank`, not an
`AssetDecodeError` that fails the run. -/
theorem decode_failure_counterexample :
    renderVisualTick (some (0, 10)) = Except.ok DrawResult.blank ∧
    loadVisualResult true "broken.png" = Except.ok () := by
  constructor
  · rw [renderVisualTick]
    norm_num
  · rfl

/-- C6 amended: an asset that loads but yields no drawable width is skipped
silently on every frame (the surface stays black there) and the run continues;
no `AssetDecodeError` exists. Only a failed load event rejects the run, with an
error naming the asset. -/
theorem decode_failure_skipped (w h : ℚ) (hw : w ≤ 0) (assetName : String) :
    renderVisualTick (some (w, h)) = Except.ok DrawResult.blank ∧
    loadVisualResult false assetName
      = Except.error ("Failed to load visual: " ++ assetName) := by
  constructor
  · have hnw : ¬ (0 < w) := not_lt.mpr hw
    rw [renderVisualTick]
    simp only [if_neg hnw]
  · rfl

theorem decode_failure_skipped_witness :
    (0 : ℚ) ≤ 0 ∧ renderVisualTick (some (0, 10)) = Except.ok DrawResult.blank :=
  ⟨le_refl 0, (decode_failure_skipped 0 10 (le_refl 0) "broken.png").1⟩

/-- Mutable state of one `createVideoBlob` run, as far as the recorder and the
render interval are concerned: the frame counter, whether the interval is still
installed, whether the recorder is recording, whether a motion clip is playing,
the settlement of the surrounding promise (`none` while pending), and the number
of accumulated chunks. -/
structure RunState where
  frame : ℕ
  intervalActive : Bool
  recording : Bool
  mediaPlaying : Bool
  settled : Option (Except String ℕ)
  chunks : ℕ

/-- Promise settlement: the first `resolve`/`reject` wins, later calls are
ignored. -/
def settleWith (s : RunState) (r : Except String ℕ) : RunState :=
  match s.settled with
  | some _ => s
  | none => { s with settled := some r }

/-- `recorder.onerror = e => reject(e)` (`YouTubeUploader.tsx`, line 122): the
handler only rejects the promise; it clears no interval, stops nothing and
pauses nothing. -/
def onRecorderError (s : RunState) : RunState :=
  settleWith s (Except.error "RecordingError")

/-- `recorder.onstop` (`YouTubeUploader.tsx`, line 121): resolves with the blob
concatenated from the accumulated chunks — a no-op if the promise already
settled. -/
def onRecorderStop (s : RunState) : RunState :=
  settleWith s (Except.ok s.chunks)

/-- `recorder.ondataavailable` (`YouTubeUploader.tsx`, line 120): accumulates a
chunk. -/
def onDataAvailable (s : RunState) : RunState :=
  { s with chunks := s.chunks + 1 }

/-- One render-interval tick (`YouTubeUploader.tsx`, lines 135-144 and 242): when
the interval is still installed, a tick with `frame > totalFrames` clears the
interval, stops the recorder and pauses the media elements; otherwise the tick
composites the frame and increments the counter. -/
def onTick (total : ℕ) (s : RunState) : RunState :=
  if s.intervalActive = false then s
  else if total < s.frame then
    { s with intervalActive := false, recording := false, mediaPlaying := false }
  else { s with frame := s.frame + 1 }

/-- A run in mid-flight: frame 5 of a 60-frame run, interval installed, recorder
recording, a motion clip playing, the promise pending, three chunks
accumulated. -/
def midRunState : RunState :=
  { frame := 5, intervalActive := true, recording := true, mediaPlaying := true, settled := none, chunks := 3 }

/-- C7 counterexample: the recorder fails at frame 5 of a 60-frame run, yet the
next tick still composites (the frame counter advances to 6), the render
interval stays installed and motion-clip playback continues — the loop is not
stopped on the same or the next tick. -/
theorem recorder_error_counterexample :
    (onTick 60 (onRecorderError midRunState)).intervalActive = true ∧
    (onTick 60 (onRecorderError midRunState)).frame = 6 ∧
    (onTick 60 (onRecorderError midRunState)).mediaPlaying = true :=
  ⟨rfl, rfl, rfl⟩

/-- C7 amended: a recorder error rejects the promise at once, so no partial file
is ever returned — in particular the later `onstop` resolve with the accumulated
chunks is ignored — but the error handler does not stop the render loop: a
pending tick still composites the next frame with the interval installed and
playback running, and the loop only stops, pausing playback, when the frame
counter passes `totalFrames`. -/
theorem recorder_error_behavior (s : RunState) (total : ℕ)
    (hpending : s.settled = none) (hactive : s.intervalActive = true)
    (hframe : s.frame ≤ total) :
    (onRecorderError s).settled = some (Except.error "RecordingError") ∧
    (onRecorderStop (onRecorderError s)).settled = some (Except.error "RecordingError") ∧
    (onTick total (onRecorderError s)).intervalActive = true ∧
    (onTick total (onRecorderError s)).frame = s.frame + 1 ∧
    (onTick total (onRecorderError s)).mediaPlaying = s.mediaPlaying ∧
    (∀ u : RunState, u.intervalActive = true → total < u.frame →
      (onTick total u).intervalActive = false ∧ (onTick total u).mediaPlaying = false) := by
  have herr : onRecorderError s = { s with settled := some (Except.error "RecordingError") } := by
    rw [onRecorderError, settleWith, hpending]
  have hstop : onRecorderStop (onRecorderError s) = onRecorderError s := by
    rw [onRecorderStop, herr, settleWith]
  have hnot : ¬ (total < s.frame) := not_lt.mpr hframe
  refine ⟨by rw [herr], by rw [hstop, herr], ?_, ?_, ?_, ?_⟩
  · rw [herr, onTick]
    simp [hactive, hnot]
  · rw [herr, onTick]
    simp [hactive, hnot]
  · rw [herr, onTick]
    simp [hactive, hnot]
  · intro u hu hlt
    rw [onTick]
    simp [hu, hlt]

theorem recorder_error_behavior_witness :
    midRunState.settled = none ∧
    (onRecorderError midRunState).settled = some (Except.error "RecordingError") :=
  ⟨rfl, (recorder_error_behavior midRunState 60 rfl rfl (by decide)).1⟩

/-- The sequential awaits of `handleUpload` and `handleDownload`
(`YouTubeUploader.tsx`, lines 351-353 and 379-381): `generateCaptions` is awaited
first, and any rejection lands in the surrounding `catch`, aborting the run
before `createVideoBlob` is consulted. -/
def synthesisPipeline (captionResult : Except String (List Caption))
    (makeBlob : List Caption → Except String ℕ) : Except String ℕ :=
  match captionResult with
  | Except.error e => Except.error e
  | Except.ok caps => makeBlob caps

/-- The caption preview effect (`YouTubeUploader.tsx`, lines 281-290): on promise
success the captions are stored; on failure the caption list stays empty and the
overlay falls back to the title. -/
def previewCaptionState (captionResult : Except String (List Caption)) (title : String) :
    List Caption × String :=
  match captionResult with
  | Except.ok caps => (caps, "")
  | Except.error _ => ([], title)

/-- C8 counterexample: a caption-estimation failure aborts the synthesis run with
the caption error even though blob creation would have succeeded — the run does
not proceed to produce a container with an empty caption list. -/
theorem caption_failure_aborts_counterexample :
    synthesisPipeline (Except.error "Invalid audio duration for caption generation.")
      (fun _ => Except.ok 1)
      = Except.error "Invalid audio duration for caption generation." := rfl

/-- C8 amended: in `handleUpload`/`handleDownload` a caption-estimation failure
propagates and aborts the run — `createVideoBlob` is never reached — while only
the preview effect degrades gracefully, keeping an empty caption list and
falling back to the title overlay. -/
theorem caption_failure_aborts (e : String) (makeBlob : List Caption → Except String ℕ)
    (title : String) :
    synthesisPipeline (Except.error e) makeBlob = Except.error e ∧
    previewCaptionState (Except.error e) title = ([], title) :=
  ⟨rfl, rfl⟩

/-- The video details consumed by `uploadVideo` (`src/types.ts`; only the fields
the upload request reads are modelled). -/
structure VideoDetails where
  title : String
  description : String
  tags : List String
deriving DecidableEq

/-- The `snippet` part of the upload request metadata. -/
structure UploadSnippet where
  title : String
  description : String
  tags : List String
deriving DecidableEq

/-- The `status` part of the upload request metadata. -/
structure UploadStatus where
  privacyStatus : String
deriving DecidableEq

/-- The full upload request metadata. -/
structure UploadMetadata where
  snippet : UploadSnippet
  status : UploadStatus
deriving DecidableEq

/-- The request metadata `uploadVideo` builds (YouTube service module, lines
131-140): the snippet carries the caller's title, description and tags, and the
status hard-codes `privacyStatus: 'private'`. -/
def uploadMetadataFor (details : VideoDetails) : UploadMetadata :=
  { snippet := { title := details.title, description := details.description, tags := details.tags }
    status := { privacyStatus := "private" } }

/-- C10: for every details input, the metadata built by `uploadVideo` sets the
privacy status to `private`; no input yields `public` or `unlisted`. -/
theorem upload_always_private (details : VideoDetails) :
    (uploadMetadataFor details).status.privacyStatus = "private" ∧
    (uploadMetadataFor details).status.privacyStatus ≠ "public" ∧
    (uploadMetadataFor details).status.privacyStatus ≠ "unlisted" :=
  ⟨rfl, (by decide : ("private" : String) ≠ "public"),
    (by decide : ("private" : String) ≠ "unlisted")⟩
